import Mathlib

/-!
Verification development for the `drum` SPLICE-file decoder.

The Go source (`decoder.go`, package `drum`) is shallowly embedded below.
Byte buffers are `List Nat` (each entry one byte of the file, values 0-255).
The buffer handed to the decoder is produced by `ioutil.ReadFile`, which
allocates its backing array with capacity `max 512 (size+1)` and zero-fills
it; Go slice expressions `s[a:b]` are legal for `b` up to the capacity and
then read the zero-initialized region past the file's bytes, while index
expressions `s[i]` are legal only for `i < len(s)` and panic otherwise.
The embedding models this: `byteAt` reads a byte with zero past the end of
the file, `remCap` is the capacity available to the payload slice
`remaining = contents[14 : 14+count]`, and runtime panics from out-of-range
indexing or slicing are modelled as the error `DecodeErr.sliceOutOfRange`.

The tempo field is a little-endian IEEE-754 binary32 value; `binary.Read`
with `binary.LittleEndian` merely reassembles the four bytes into the
32-bit pattern, a bijection between byte quadruples and float bit patterns,
so the embedding carries the tempo as that little-endian 32-bit word.
-/

namespace Drum

def szFileIDFld : Nat := 6

def szPlatFld : Nat := 11

def posRemBytesFld : Nat := 13

def posStartOfData : Nat := 14

def posStartTempo : Nat := 32

def szTempoFld : Nat := 4

def posFirstInstrument : Nat := 36

def numSteps : Nat := 16

/-- The error identities of `decoder.go` plus `sliceOutOfRange`, which stands
for a Go runtime panic from an out-of-range index or slice expression. -/
inductive DecodeErr where
  | emptySpliceFile
  | badFileType
  | noRemBytesFld
  | invalidNumBytes
  | sliceOutOfRange
deriving DecidableEq

/-- One track of a pattern: `id` is the instrument id byte, `name` the raw
bytes of the instrument name, `steps` the 16 step bytes. -/
structure track where
  id : Nat
  name : List Nat
  steps : List Nat
deriving DecidableEq

/-- The decoded pattern: hardware-version bytes (zero-padding trimmed), the
tempo as its little-endian 32-bit word, and the tracks in file order. -/
structure Pattern where
  hwver : List Nat
  tempo : Nat
  tracks : List track
deriving DecidableEq

/-- Capacity of the backing array `ioutil.ReadFile` allocates for a file of
`n` bytes: at least 512, and at least one spare byte after the contents. -/
def goReadFileCap (n : Nat) : Nat := max 512 (n + 1)

/-- Byte `i` of the read buffer: the file byte for `i < length`, and the
zero-initialized capacity region beyond it. -/
def byteAt (c : List Nat) (i : Nat) : Nat := c.getD i 0

/-- Capacity of the payload slice `remaining = contents[14 : 14+count]`. -/
def remCap (c : List Nat) : Nat := goReadFileCap c.length - posStartOfData

/-- Byte `i` of the payload slice `remaining`, i.e. file byte `14 + i`. -/
def remByte (c : List Nat) (i : Nat) : Nat := byteAt c (posStartOfData + i)

/-- The `k` bytes `remaining[a : a+k]` of the payload slice. -/
def remBytes (c : List Nat) (a k : Nat) : List Nat :=
  (List.range k).map (fun i => remByte c (a + i))

/-- The bytes of the ASCII text SPLICE. -/
def spliceTag : List Nat := [83, 80, 76, 73, 67, 69]

/-- The bytes of `string(contents[:6])`: always within the read buffer's
capacity (which is at least 512), zero-padded past the end of the file. -/
def fileTag (c : List Nat) : List Nat := (List.range szFileIDFld).map (byteAt c)

/-- `bytes.TrimRight(l, "\x00")`: drop trailing zero bytes. -/
def trimRightZeros (l : List Nat) : List Nat :=
  (l.reverse.dropWhile (fun b => b = 0)).reverse

/-- Embedding of `isValidateSplice` from `decoder.go`. -/
def isValidateSplice (c : List Nat) : Option DecodeErr :=
  if c.length = 0 then some .emptySpliceFile
  else if fileTag c ≠ spliceTag then some .badFileType
  else if c.length < posRemBytesFld + 1 then some .noRemBytesFld
  else none

/-- The little-endian 32-bit word formed by the four bytes at offsets
`off, off+1, off+2, off+3` of the buffer; this is the bit pattern
`binary.Read(..., binary.LittleEndian, &float32)` assembles. -/
def readF32LEword (c : List Nat) (off : Nat) : Nat :=
  byteAt c off +
    256 * (byteAt c (off + 1) +
      256 * (byteAt c (off + 2) + 256 * byteAt c (off + 3)))

/-- Embedding of the track-decoding loop of `DecodeFile`.  `remLen` is
`len(remaining)`, `byteptr` the cursor, `acc` the tracks decoded so far.
Index expressions (`remaining[byteptr]`, the 16 step reads) are guarded by
`< remLen`, the name slice `remaining[p2 : p2+szname]` by the slice
capacity; a failed guard is the Go runtime panic, `sliceOutOfRange`.
Each iteration advances the cursor by at least 21, so with starting fuel
`remLen + 1` the fuel never runs out before the loop condition fails. -/
def decodeTracksFuel (c : List Nat) (remLen : Nat) :
    Nat → Nat → List track → Except DecodeErr (List track)
  | 0, _, _ => .error .sliceOutOfRange
  | fuel + 1, byteptr, acc =>
    if byteptr < remLen then
      let id := remByte c byteptr
      let p1 := byteptr + 4
      if p1 < remLen then
        let szname := remByte c p1
        let p2 := p1 + 1
        if p2 + szname ≤ remCap c then
          let name := remBytes c p2 szname
          let p3 := p2 + szname
          if p3 + numSteps ≤ remLen then
            let steps := remBytes c p3 numSteps
            decodeTracksFuel c remLen fuel (p3 + numSteps)
              (acc ++ [{ id := id, name := name, steps := steps }])
          else .error .sliceOutOfRange
        else .error .sliceOutOfRange
      else .error .sliceOutOfRange
    else .ok acc

/-- Embedding of `DecodeFile` from `decoder.go`, after `ioutil.ReadFile` has
produced the byte buffer `c` (I/O errors are surfaced before this logic and
are out of scope here). -/
def decode (c : List Nat) : Except DecodeErr Pattern :=
  match isValidateSplice c with
  | some e => .error e
  | none =>
    -- Go locals, written inline: reptdBytesRem is `byteAt c posRemBytesFld`
    -- (the byte `contents[13]`), actualBytesRem is
    -- `c.length - posRemBytesFld - 1` (the int `len(contents) - 13 - 1`).
    if c.length - posRemBytesFld - 1 < byteAt c posRemBytesFld then
      .error .invalidNumBytes
    else
      match decodeTracksFuel c (byteAt c posRemBytesFld)
          (byteAt c posRemBytesFld + 1) posFirstInstrument [] with
      | .error e => .error e
      | .ok tracks =>
        .ok { hwver := trimRightZeros (remBytes c 0 szPlatFld),
              tempo := readF32LEword c (posStartOfData + posStartTempo),
              tracks := tracks }

/-- The declared payload: the `count` bytes following the count field, where
`count` is the byte at index 13. -/
def payloadBytes (c : List Nat) : List Nat :=
  (c.drop posStartOfData).take (byteAt c posRemBytesFld)

/-- One step cell of `tracksAsString`: byte `x` when the step byte is exactly
1, byte `-` otherwise. -/
def stepChar (s : Nat) : List Nat := if s = 1 then [120] else [45]

/-- The inner loop of `tracksAsString`: `j` is the running index of the Go
`range` loop; after each cell a `|` byte is appended when `(j+1) % 4 = 0`. -/
def stepStrAux : Nat → List Nat → List Nat
  | _, [] => []
  | j, s :: ss =>
    stepChar s ++ (if (j + 1) % 4 = 0 then [124] else []) ++ stepStrAux (j + 1) ss

/-- The `stepstr` string built for one track by `tracksAsString`. -/
def stepString (steps : List Nat) : List Nat := stepStrAux 0 steps

/-- The ASCII bytes of the decimal rendering of `n` (what `%d` prints). -/
def natDecimal (n : Nat) : List Nat := (Nat.repr n).toList.map Char.toNat

/-- One line of `tracksAsString`: the format string is
(%d) %s\t|%s\n with the id, the name and the step string. -/
def trackLine (t : track) : List Nat :=
  [40] ++ natDecimal t.id ++ [41, 32] ++ t.name ++ [9, 124] ++
    stepString t.steps ++ [10]

/-- Embedding of `tracksAsString` from `decoder.go`: the track lines
concatenated in track order. -/
def tracksAsString (p : Pattern) : List Nat :=
  p.tracks.foldl (fun acc t => acc ++ trackLine t) []

/-! Definitions written from the specification's words, for the refinement
claims; each is compared against the corresponding definition above, which
is translated from the source. -/

/-- Spec's words: a cell renders as `x` exactly when its byte value is 1 and
as `-` for every other value. -/
def specCell (s : Nat) : List Nat := if s = 1 then [120] else [45]

/-- Spec's words: a group of 4 cells followed by a `|`. -/
def specGroup (g : List Nat) : List Nat := (g.map specCell).flatten ++ [124]

/-- Spec's words: a track line is (<id>) <name><TAB>| followed by the 16
step cells with a `|` after every group of 4 (after cells 4, 8, 12, 16),
so it ends with a trailing `|`. -/
def specTrackLine (t : track) : List Nat :=
  [40] ++ natDecimal t.id ++ [41, 32] ++ t.name ++ [9, 124] ++
    specGroup (t.steps.take 4) ++ specGroup ((t.steps.drop 4).take 4) ++
    specGroup ((t.steps.drop 8).take 4) ++ specGroup ((t.steps.drop 12).take 4)

/-- Spec's words: one line per track, in track sequence order, each ending
with a newline. -/
def specRender (p : Pattern) : List Nat :=
  (p.tracks.map (fun t => specTrackLine t ++ [10])).flatten

/-- Spec's words for the track-record loop, over an explicit payload byte
list `P`: starting at a given cursor, repeatedly read 1 byte id, skip 3
reserved bytes (4 total), read 1 byte name-length `n`, read `n` name bytes,
read 16 step bytes, append the track, until the cursor reaches or would
exceed the payload length. -/
def specTrackRecords (P : List Nat) : Nat → Nat → List track → List track
  | 0, _, acc => acc
  | fuel + 1, cursor, acc =>
    if cursor < P.length then
      let id := P.getD cursor 0
      let n := P.getD (cursor + 4) 0
      let name := (P.drop (cursor + 5)).take n
      let steps := (P.drop (cursor + 5 + n)).take numSteps
      specTrackRecords P fuel (cursor + 5 + n + numSteps)
        (acc ++ [{ id := id, name := name, steps := steps }])
    else acc

/-! Concrete buffers used by witnesses and counterexamples. -/

/-- The bytes of the text 0.808-alpha. -/
def hw808 : List Nat := [48, 46, 56, 48, 56, 45, 97, 108, 112, 104, 97]

/-- The bytes of the text kick. -/
def kickName : List Nat := [107, 105, 99, 107]

/-- Steps x---x---x---x---. -/
def kickSteps : List Nat := [1, 0, 0, 0, 1, 0, 0, 0, 1, 0, 0, 0, 1, 0, 0, 0]

/-- A 36-byte payload whose bytes at payload offsets 18..21 form the
little-endian word 1 and whose bytes at payload offsets 32..35 form the
little-endian word 2. -/
def tempoProbePayload : List Nat :=
  List.replicate 18 0 ++ [1, 0, 0, 0] ++ List.replicate 10 0 ++ [2, 0, 0, 0]

/-- A 50-byte file with declared count 36 around `tempoProbePayload`. -/
def tempoProbeBuf : List Nat :=
  spliceTag ++ List.replicate 7 0 ++ [36] ++ tempoProbePayload

/-- A 61-byte payload: version 0.808-alpha, tempo 120.0 (bytes 0 0 240 66
at payload offsets 32..35), and one track record (id 7, name kick,
steps `kickSteps`) at payload offsets 36..60. -/
def oneTrackPayload : List Nat :=
  hw808 ++ List.replicate 21 0 ++ [0, 0, 240, 66] ++
    [7, 0, 0, 0] ++ [4] ++ kickName ++ kickSteps

/-- A 75-byte file with declared count 61 around `oneTrackPayload`. -/
def oneTrackBuf : List Nat :=
  spliceTag ++ List.replicate 7 0 ++ [61] ++ oneTrackPayload

/-- The Pattern `oneTrackBuf` decodes to: version 0.808-alpha, tempo word
1123024896 (the bit pattern of the float 120.0), one kick track. -/
def oneTrackPat : Pattern :=
  { hwver := hw808, tempo := 1123024896,
    tracks := [{ id := 7, name := kickName, steps := kickSteps }] }

/-- The 14-byte file SPLICE followed by eight zero bytes: declared count 0,
empty payload. -/
def tinyBuf : List Nat := spliceTag ++ List.replicate 8 0

/-! Helper lemmas. -/

theorem remBytes_length (c : List Nat) (a k : Nat) : (remBytes c a k).length = k := by
  simp [remBytes]

theorem validation_none_facts (c : List Nat) (hv : isValidateSplice c = none) :
    c.length ≠ 0 ∧ fileTag c = spliceTag ∧ posRemBytesFld + 1 ≤ c.length := by
  unfold isValidateSplice at hv
  split at hv
  · exact absurd hv (by simp)
  · next h0 =>
    split at hv
    · exact absurd hv (by simp)
    · next h1 =>
      split at hv
      · exact absurd hv (by simp)
      · next h2 => exact ⟨h0, not_not.mp h1, Nat.not_lt.mp h2⟩

/-- After successful validation, `decode` is the count check followed by the
header reads and the track loop. -/
theorem decode_of_valid (c : List Nat) (hv : isValidateSplice c = none) :
    decode c =
      if c.length - posRemBytesFld - 1 < byteAt c posRemBytesFld then
        .error .invalidNumBytes
      else
        match decodeTracksFuel c (byteAt c posRemBytesFld)
            (byteAt c posRemBytesFld + 1) posFirstInstrument [] with
        | .error e => .error e
        | .ok tracks =>
          .ok { hwver := trimRightZeros (remBytes c 0 szPlatFld),
                tempo := readF32LEword c (posStartOfData + posStartTempo),
                tracks := tracks } := by
  unfold decode
  rw [hv]

theorem decodeTracksFuel_error_eq (c : List Nat) (L : Nat) :
    ∀ fuel ptr acc e, decodeTracksFuel c L fuel ptr acc = .error e →
      e = DecodeErr.sliceOutOfRange := by
  intro fuel
  induction fuel with
  | zero =>
    intro ptr acc e h
    simp only [decodeTracksFuel] at h
    exact (Except.error.injEq _ _ ▸ h).symm
  | succ fuel ih =>
    intro ptr acc e h
    simp only [decodeTracksFuel] at h
    split at h
    · split at h
      · split at h
        · split at h
          · exact ih _ _ _ h
          · simpa using (Except.error.injEq _ _ ▸ h).symm
        · simpa using (Except.error.injEq _ _ ▸ h).symm
      · simpa using (Except.error.injEq _ _ ▸ h).symm
    · exact absurd h (by simp)

theorem decodeTracksFuel_steps_len (c : List Nat) (L : Nat) :
    ∀ fuel ptr acc ts, decodeTracksFuel c L fuel ptr acc = .ok ts →
      (∀ t ∈ acc, t.steps.length = numSteps) →
      ∀ t ∈ ts, t.steps.length = numSteps := by
  intro fuel
  induction fuel with
  | zero =>
    intro ptr acc ts h
    exact absurd h (by simp [decodeTracksFuel])
  | succ fuel ih =>
    intro ptr acc ts h hacc
    simp only [decodeTracksFuel] at h
    split at h
    · split at h
      · split at h
        · split at h
          · refine ih _ _ _ h ?_
            intro t ht
            rcases List.mem_append.mp ht with h1 | h2
            · exact hacc t h1
            · simp only [List.mem_singleton] at h2
              subst h2
              exact remBytes_length c _ _
          · exact absurd h (by simp)
        · exact absurd h (by simp)
      · exact absurd h (by simp)
    · obtain rfl : acc = ts := by simpa using h
      exact hacc

theorem sub_pos_arith (n : Nat) : n - posRemBytesFld - 1 = n - posStartOfData := by
  unfold posRemBytesFld posStartOfData
  omega

/-- Decomposition of a successful `decode`: the validation-, count-,
header- and track-level facts it implies. -/
theorem decode_ok_facts (c : List Nat) (p : Pattern) (h : decode c = .ok p) :
    isValidateSplice c = none ∧
    byteAt c posRemBytesFld ≤ c.length - posStartOfData ∧
    p.hwver = trimRightZeros (remBytes c 0 szPlatFld) ∧
    p.tempo = readF32LEword c (posStartOfData + posStartTempo) ∧
    decodeTracksFuel c (byteAt c posRemBytesFld) (byteAt c posRemBytesFld + 1)
      posFirstInstrument [] = .ok p.tracks := by
  have hv : isValidateSplice c = none := by
    cases ho : isValidateSplice c with
    | none => rfl
    | some e =>
      unfold decode at h
      rw [ho] at h
      exact Except.noConfusion h
  rw [decode_of_valid c hv] at h
  split at h
  · exact Except.noConfusion h
  · next hge =>
    split at h
    · exact Except.noConfusion h
    · next ts hts =>
      rw [Except.ok.injEq] at h
      subst h
      exact ⟨hv, le_of_le_of_eq (Nat.not_lt.mp hge) (sub_pos_arith c.length),
        rfl, rfl, hts⟩

/-- C3 (confirmed): validation is the ordered three-way case analysis:
empty buffer fails with EmptyFile; otherwise a first-6-bytes tag other than
SPLICE fails with BadFileType; otherwise fewer than 14 bytes fails with
MissingLengthField; otherwise validation succeeds.  In particular the
buffer holding exactly the 6 tag bytes fails with MissingLengthField and
decoding it never yields a Pattern. -/
theorem validation_case_analysis :
    (∀ c : List Nat,
      (c.length = 0 ∧ isValidateSplice c = some DecodeErr.emptySpliceFile) ∨
      (c.length ≠ 0 ∧ fileTag c ≠ spliceTag ∧
        isValidateSplice c = some DecodeErr.badFileType) ∨
      (c.length ≠ 0 ∧ fileTag c = spliceTag ∧ c.length < 14 ∧
        isValidateSplice c = some DecodeErr.noRemBytesFld) ∨
      (c.length ≠ 0 ∧ fileTag c = spliceTag ∧ 14 ≤ c.length ∧
        isValidateSplice c = none)) ∧
    decode spliceTag = Except.error DecodeErr.noRemBytesFld := by
  constructor
  · intro c
    by_cases h0 : c.length = 0
    · exact Or.inl ⟨h0, by simp [isValidateSplice, h0]⟩
    · by_cases h1 : fileTag c = spliceTag
      · by_cases h2 : c.length < 14
        · exact Or.inr (Or.inr (Or.inl ⟨h0, h1, h2,
            by simp [isValidateSplice, h0, h1, posRemBytesFld]; omega⟩))
        · exact Or.inr (Or.inr (Or.inr ⟨h0, h1, by omega,
            by simp [isValidateSplice, h0, h1, posRemBytesFld]; omega⟩))
      · exact Or.inr (Or.inl ⟨h0, h1, by simp [isValidateSplice, h0, h1]⟩)
  · rfl

/-- C5 (confirmed): a non-empty buffer shorter than the 6 tag bytes fails
validation with BadFileType (so validation never succeeds on it), and the
tag read stays within the capacity of the buffer `ioutil.ReadFile`
allocates, whose zero-filled region pads the missing tag bytes. -/
theorem short_buffer_bad_file_type (c : List Nat) (hne : c ≠ [])
    (hlt : c.length < szFileIDFld) :
    isValidateSplice c = some DecodeErr.badFileType ∧
    szFileIDFld ≤ goReadFileCap c.length := by
  have h5 : byteAt c 5 = 0 := by
    unfold byteAt
    exact List.getD_eq_default _ _ (by unfold szFileIDFld at hlt; omega)
  have htag : fileTag c ≠ spliceTag := by
    intro h
    have hr : fileTag c = [byteAt c 0, byteAt c 1, byteAt c 2, byteAt c 3,
        byteAt c 4, byteAt c 5] := rfl
    rw [hr, spliceTag] at h
    simp only [List.cons.injEq] at h
    omega
  have h0 : c.length ≠ 0 := by
    intro h
    exact hne (List.length_eq_zero.mp h)
  refine ⟨by simp [isValidateSplice, h0, htag], ?_⟩
  unfold szFileIDFld goReadFileCap
  omega

/-- Witness for C5 at the one-byte buffer holding just the byte of S. -/
theorem short_buffer_bad_file_type_witness :
    isValidateSplice [83] = some DecodeErr.badFileType ∧
    szFileIDFld ≤ goReadFileCap (List.length [83]) :=
  short_buffer_bad_file_type [83] (by simp) (by decide)

/-- C4 (confirmed): for a buffer that passes validation, with the declared
count read as the byte at index 13 and the actual remainder being the
total length minus 14, decoding fails with InvalidByteCount exactly when
the actual remainder is smaller than the declared count; the check sits
before the track loop, whose own failures are `sliceOutOfRange`. -/
theorem invalid_byte_count_iff (c : List Nat)
    (hv : isValidateSplice c = none) :
    decode c = Except.error DecodeErr.invalidNumBytes ↔
      c.length - posStartOfData < byteAt c posRemBytesFld := by
  rw [decode_of_valid c hv]
  constructor
  · intro h
    split at h
    · next hlt => exact sub_pos_arith c.length ▸ hlt
    · split at h
      · next e he =>
        have herr := decodeTracksFuel_error_eq c _ _ _ _ _ he
        rw [Except.error.injEq] at h
        rw [h] at herr
        exact absurd herr (by simp)
      · exact Except.noConfusion h
  · intro h
    rw [if_pos (by rw [sub_pos_arith c.length]; exact h)]

/-- Witness for C4: a 14-byte buffer declaring 5 remaining bytes while 0
are present fails with InvalidByteCount. -/
theorem invalid_byte_count_iff_witness :
    decode [83, 80, 76, 73, 67, 69, 0, 0, 0, 0, 0, 0, 0, 5] =
      Except.error DecodeErr.invalidNumBytes :=
  (invalid_byte_count_iff [83, 80, 76, 73, 67, 69, 0, 0, 0, 0, 0, 0, 0, 5]
    (by rfl)).mpr (by decide)

/-- C9 (confirmed): decoding is all-or-nothing: every buffer yields either a
fully populated Pattern (every decoded track carries exactly 16 step bytes)
with no error, or an error with no Pattern; the `Except` result carries
exactly one of the two, never both and never a partial Pattern. -/
theorem decode_all_or_nothing (c : List Nat) :
    (∃ p, decode c = Except.ok p ∧ ∀ t ∈ p.tracks, t.steps.length = numSteps) ∨
    (∃ e, decode c = Except.error e) := by
  cases h : decode c with
  | error e => exact Or.inr ⟨e, rfl⟩
  | ok p =>
    refine Or.inl ⟨p, rfl, ?_⟩
    obtain ⟨-, -, -, -, hts⟩ := decode_ok_facts c p h
    exact decodeTracksFuel_steps_len c _ _ _ _ _ hts (by simp)

/-- C10 (confirmed): a buffer that passes validation and declares exactly 36
remaining bytes decodes successfully with an empty track sequence (the loop
starts with the cursor already at the payload length), the hardware version
and tempo coming from the header region. -/
theorem count36_decodes_empty_tracks (c : List Nat)
    (hv : isValidateSplice c = none)
    (h13 : byteAt c posRemBytesFld = 36)
    (hlen : 36 ≤ c.length - posStartOfData) :
    decode c = Except.ok
      { hwver := trimRightZeros (remBytes c 0 szPlatFld),
        tempo := readF32LEword c (posStartOfData + posStartTempo),
        tracks := [] } := by
  rw [decode_of_valid c hv, h13]
  rw [if_neg (by rw [sub_pos_arith c.length]; omega)]
  have hloop : decodeTracksFuel c 36 (36 + 1) posFirstInstrument [] =
      .ok [] := by
    simp [decodeTracksFuel, posFirstInstrument]
  rw [hloop]

/-- Witness for C10 at the 50-byte buffer `tempoProbeBuf` (count 36). -/
theorem count36_decodes_empty_tracks_witness :
    decode tempoProbeBuf = Except.ok
      { hwver := trimRightZeros (remBytes tempoProbeBuf 0 szPlatFld),
        tempo := readF32LEword tempoProbeBuf (posStartOfData + posStartTempo),
        tracks := [] } :=
  count36_decodes_empty_tracks tempoProbeBuf rfl rfl (by decide)

/-- C1 (corrected): the decoded tempo is the little-endian 32-bit float
word read from the 4 bytes at payload offset 32, absolute file offset 46
(`posStartOfData + posStartTempo`) - the source indexes the payload slice
`remaining` directly with `posStartTempo = 32` - not from payload offset 18
(absolute file offset 32) as the claim states. -/
theorem decode_tempo_at_offset46 (c : List Nat) (p : Pattern)
    (h : decode c = .ok p) :
    p.tempo = readF32LEword c (posStartOfData + posStartTempo) :=
  (decode_ok_facts c p h).2.2.2.1

/-- Witness for C1 at the one-track buffer: its decoded tempo word
1123024896 (float 120.0) is the word at file offset 46. -/
theorem decode_tempo_at_offset46_witness :
    decode oneTrackBuf = Except.ok oneTrackPat ∧
    oneTrackPat.tempo =
      readF32LEword oneTrackBuf (posStartOfData + posStartTempo) :=
  ⟨rfl, decode_tempo_at_offset46 oneTrackBuf oneTrackPat rfl⟩

/-- C1 counterexample: `tempoProbeBuf` passes validation and the byte-count
check; the little-endian word formed by the 4 bytes at absolute file offset
32 (payload offset 18) is 1, yet the decoded tempo word is 2 (the bytes at
file offset 46): the tempo is not read at payload offset 18. -/
theorem tempo_not_at_payload_offset18 :
    decode tempoProbeBuf =
      Except.ok { hwver := [], tempo := 2, tracks := [] } ∧
    readF32LEword tempoProbeBuf posStartTempo = 1 ∧ (2 : Nat) ≠ 1 :=
  ⟨rfl, rfl, by decide⟩

theorem payload_length (c : List Nat) (N : Nat)
    (hN : posStartOfData + N ≤ c.length) :
    ((c.drop posStartOfData).take N).length = N := by
  simp only [List.length_take, List.length_drop]
  omega

theorem payload_getD (c : List Nat) (N i : Nat)
    (hN : posStartOfData + N ≤ c.length) (hi : i < N) :
    ((c.drop posStartOfData).take N).getD i 0 = remByte c i := by
  have hlen : i < ((c.drop posStartOfData).take N).length := by
    rw [payload_length c N hN]
    exact hi
  rw [List.getD_eq_getElem _ _ hlen, List.getElem_take, List.getElem_drop]
  unfold remByte byteAt
  rw [List.getD_eq_getElem c 0 (by omega)]

theorem payload_slice (c : List Nat) (N a k : Nat)
    (hN : posStartOfData + N ≤ c.length) (hak : a + k ≤ N) :
    (((c.drop posStartOfData).take N).drop a).take k = remBytes c a k := by
  apply List.ext_getElem
  · rw [remBytes_length]
    simp only [List.length_take, List.length_drop]
    omega
  · intro n h1 h2
    rw [List.getElem_take, List.getElem_drop, List.getElem_take,
      List.getElem_drop]
    unfold remBytes at h2 ⊢
    rw [List.getElem_map, List.getElem_range]
    unfold remByte byteAt
    rw [List.getD_eq_getElem c 0 (by
      rw [List.length_map, List.length_range] at h2
      omega)]

/-- Whenever the track loop of the source succeeds, it computes exactly the
record parse described by `specTrackRecords` over the declared payload,
from the same cursor. -/
theorem decodeTracksFuel_eq_spec (c : List Nat) (N : Nat)
    (hN : posStartOfData + N ≤ c.length) :
    ∀ fuel ptr acc ts, decodeTracksFuel c N fuel ptr acc = .ok ts →
      specTrackRecords ((c.drop posStartOfData).take N) fuel ptr acc = ts := by
  intro fuel
  induction fuel with
  | zero =>
    intro ptr acc ts h
    exact absurd h (by simp [decodeTracksFuel])
  | succ fuel ih =>
    intro ptr acc ts h
    simp only [decodeTracksFuel] at h
    simp only [specTrackRecords]
    split at h
    · next h0 =>
      split at h
      · next h1 =>
        split at h
        · next h2 =>
          split at h
          · next h3 =>
            rw [if_pos (by rw [payload_length c N hN]; exact h0)]
            have hrec := ih _ _ _ h
            rw [payload_getD c N (ptr + 4) hN (by omega)]
            rw [payload_getD c N ptr hN h0]
            rw [payload_slice c N (ptr + 5) (remByte c (ptr + 4)) hN
              (by omega)]
            rw [payload_slice c N (ptr + 5 + remByte c (ptr + 4)) numSteps hN
              (by omega)]
            have e5 : ptr + 4 + 1 = ptr + 5 := by omega
            rw [e5] at hrec
            exact hrec
          · exact absurd h (by simp)
        · exact absurd h (by simp)
      · exact absurd h (by simp)
    · next h0 =>
      rw [if_neg (by rw [payload_length c N hN]; exact h0)]
      simpa using h

/-- C2 (corrected): track decoding starts at payload offset 36 (absolute
file offset 50: the source indexes the payload slice `remaining` directly
with `posFirstInstrument = 36`), not payload offset 22.  On every
successful decode the track list is exactly the spec-described record
parse - 1 byte id plus 3 skipped reserved bytes, 1 byte name-length, the
name, 16 step bytes, one strictly advancing cursor, each completed track
appended, until the cursor reaches or would exceed the payload length -
started at payload offset 36 over the declared payload. -/
theorem decode_tracks_from_offset36 (c : List Nat) (p : Pattern)
    (h : decode c = .ok p) :
    specTrackRecords (payloadBytes c) (byteAt c posRemBytesFld + 1)
      posFirstInstrument [] = p.tracks := by
  obtain ⟨hv, hle, -, -, hts⟩ := decode_ok_facts c p h
  obtain ⟨-, -, hlen⟩ := validation_none_facts c hv
  unfold payloadBytes
  refine decodeTracksFuel_eq_spec c _ ?_ _ _ _ _ hts
  unfold posRemBytesFld posStartOfData at *
  omega

/-- Witness for C2 at the one-track buffer. -/
theorem decode_tracks_from_offset36_witness :
    specTrackRecords (payloadBytes oneTrackBuf)
      (byteAt oneTrackBuf posRemBytesFld + 1) posFirstInstrument [] =
      oneTrackPat.tracks :=
  decode_tracks_from_offset36 oneTrackBuf oneTrackPat rfl

/-- C2 counterexample: `oneTrackBuf` decodes successfully, and the claim's
record parse started at payload offset 22 does not produce the decoded
track list (which is produced from payload offset 36). -/
theorem tracks_not_from_payload_offset22 :
    decode oneTrackBuf = Except.ok oneTrackPat ∧
    specTrackRecords (payloadBytes oneTrackBuf)
      (byteAt oneTrackBuf posRemBytesFld + 1) 22 [] ≠ oneTrackPat.tracks :=
  ⟨rfl, by decide⟩

theorem byteAt_take_append (c extra : List Nat) (k i : Nat)
    (hk : k ≤ c.length) (hi : i < k) :
    byteAt (c.take k ++ extra) i = byteAt c i := by
  unfold byteAt
  have h1 : i < (c.take k).length := by
    rw [List.length_take]
    omega
  rw [List.getD_append _ _ _ i h1]
  rw [List.getD_eq_getElem _ _ h1, List.getElem_take,
    List.getD_eq_getElem c 0 (by omega)]

theorem remBytes_agree (b b' : List Nat) (a k bound : Nat)
    (hagree : ∀ i, i < bound → byteAt b' i = byteAt b i)
    (hk : posStartOfData + a + k ≤ bound) :
    remBytes b' a k = remBytes b a k := by
  unfold remBytes
  apply List.map_congr_left
  intro i hi
  rw [List.mem_range] at hi
  unfold remByte
  exact hagree _ (by omega)

/-- Two buffers that agree on every byte of the header and the declared
payload (and whose payload capacity covers the payload) run the track loop
to the same successful result. -/
theorem decodeTracksFuel_agree (b b' : List Nat) (N : Nat)
    (hagree : ∀ i, i < posStartOfData + N → byteAt b' i = byteAt b i)
    (hcap : N < remCap b') :
    ∀ fuel ptr acc ts, decodeTracksFuel b N fuel ptr acc = .ok ts →
      decodeTracksFuel b' N fuel ptr acc = .ok ts := by
  intro fuel
  induction fuel with
  | zero =>
    intro ptr acc ts h
    exact absurd h (by simp [decodeTracksFuel])
  | succ fuel ih =>
    intro ptr acc ts h
    simp only [decodeTracksFuel] at h ⊢
    split at h
    · next h0 =>
      rw [if_pos h0]
      split at h
      · next h1 =>
        rw [if_pos h1]
        split at h
        · next h2 =>
          split at h
          · next h3 =>
            have hsz : remByte b' (ptr + 4) = remByte b (ptr + 4) := by
              unfold remByte
              exact hagree _ (by omega)
            have hid : remByte b' ptr = remByte b ptr := by
              unfold remByte
              exact hagree _ (by omega)
            rw [hsz, hid]
            rw [if_pos (show ptr + 4 + 1 + remByte b (ptr + 4) ≤ remCap b' by
              omega)]
            rw [if_pos h3]
            rw [remBytes_agree b b' (ptr + 4 + 1) (remByte b (ptr + 4)) _
              hagree (by omega)]
            rw [remBytes_agree b b' (ptr + 4 + 1 + remByte b (ptr + 4))
              numSteps _ hagree (by omega)]
            exact ih _ _ _ h
          · exact absurd h (by simp)
        · exact absurd h (by simp)
      · exact absurd h (by simp)
    · next h0 =>
      rw [if_neg h0]
      exact h

/-- C8 (corrected): for a successful decode whose declared count `N` is at
least 36, the result depends only on the first `14 + N` bytes: appending
arbitrary extra bytes after them yields the identical Pattern.  (The
restriction to `N ≥ 36` is forced: for `N < 36` the version and tempo
reads extend past the declared payload - Go re-slicing stays legal up to
the buffer capacity - so trailing bytes can change the result.) -/
theorem decode_ignores_trailing_bytes (c : List Nat) (p : Pattern)
    (extra : List Nat) (h : decode c = .ok p)
    (h36 : 36 ≤ byteAt c posRemBytesFld) :
    decode (c.take (posStartOfData + byteAt c posRemBytesFld) ++ extra) =
      .ok p := by
  obtain ⟨hv, hle, hhw, htp, hts⟩ := decode_ok_facts c p h
  obtain ⟨h0len, htag, hlen14⟩ := validation_none_facts c hv
  have h14N : posStartOfData + byteAt c posRemBytesFld ≤ c.length := by
    unfold posRemBytesFld posStartOfData at *
    omega
  have hlen' :
      (c.take (posStartOfData + byteAt c posRemBytesFld) ++ extra).length =
        posStartOfData + byteAt c posRemBytesFld + extra.length := by
    simp only [List.length_append, List.length_take]
    omega
  have hagree : ∀ i, i < posStartOfData + byteAt c posRemBytesFld →
      byteAt (c.take (posStartOfData + byteAt c posRemBytesFld) ++ extra) i =
        byteAt c i := fun i hi => byteAt_take_append c extra _ i h14N hi
  have htag' : fileTag (c.take (posStartOfData + byteAt c posRemBytesFld) ++
      extra) = fileTag c := by
    unfold fileTag
    apply List.map_congr_left
    intro i hi
    rw [List.mem_range] at hi
    refine hagree i ?_
    unfold szFileIDFld at hi
    unfold posStartOfData
    omega
  have hv' : isValidateSplice
      (c.take (posStartOfData + byteAt c posRemBytesFld) ++ extra) = none := by
    unfold isValidateSplice
    rw [if_neg (by rw [hlen']; unfold posStartOfData; omega)]
    rw [if_neg (by rw [htag', htag]; simp)]
    rw [if_neg (by rw [hlen']; unfold posRemBytesFld posStartOfData; omega)]
  have h13' : byteAt (c.take (posStartOfData + byteAt c posRemBytesFld) ++
      extra) posRemBytesFld = byteAt c posRemBytesFld :=
    hagree posRemBytesFld (by unfold posRemBytesFld posStartOfData; omega)
  rw [decode_of_valid _ hv', h13']
  rw [if_neg (by
    rw [sub_pos_arith, hlen']
    omega)]
  have hcap' : byteAt c posRemBytesFld <
      remCap (c.take (posStartOfData + byteAt c posRemBytesFld) ++ extra) := by
    unfold remCap goReadFileCap
    refine lt_of_lt_of_le (b :=
      (c.take (posStartOfData + byteAt c posRemBytesFld) ++ extra).length + 1 -
        posStartOfData) ?_ (Nat.sub_le_sub_right (le_max_right _ _) _)
    rw [hlen']
    omega
  have hts' := decodeTracksFuel_agree c _ _ hagree hcap' _ _ _ _ hts
  rw [hts']
  have hhw' : remBytes (c.take (posStartOfData + byteAt c posRemBytesFld) ++
      extra) 0 szPlatFld = remBytes c 0 szPlatFld :=
    remBytes_agree c _ 0 szPlatFld _ hagree (by unfold szPlatFld; omega)
  have htp' : readF32LEword (c.take (posStartOfData +
      byteAt c posRemBytesFld) ++ extra) (posStartOfData + posStartTempo) =
      readF32LEword c (posStartOfData + posStartTempo) := by
    unfold readF32LEword
    rw [hagree (posStartOfData + posStartTempo)
        (by unfold posStartTempo; omega),
      hagree (posStartOfData + posStartTempo + 1)
        (by unfold posStartTempo; omega),
      hagree (posStartOfData + posStartTempo + 2)
        (by unfold posStartTempo; omega),
      hagree (posStartOfData + posStartTempo + 3)
        (by unfold posStartTempo; omega)]
  rw [hhw', htp', ← hhw, ← htp]

/-- Witness for C8: appending the byte 99 after the 50 declared bytes of
`tempoProbeBuf` leaves the decoded Pattern unchanged. -/
theorem decode_ignores_trailing_bytes_witness :
    decode (tempoProbeBuf.take (posStartOfData +
        byteAt tempoProbeBuf posRemBytesFld) ++ [99]) =
      Except.ok { hwver := [], tempo := 2, tracks := [] } :=
  decode_ignores_trailing_bytes tempoProbeBuf
    { hwver := [], tempo := 2, tracks := [] } [99] rfl (by decide)

/-- C8 counterexample: `tinyBuf` (14 bytes, declared count 0) decodes
successfully, and its first `14 + 0` bytes are the whole buffer; appending
the two bytes 104 105 changes the decoded Pattern (they land in the
version region the decoder still reads), so bytes beyond the declared
payload do influence the result. -/
theorem trailing_bytes_change_result :
    decode tinyBuf = Except.ok { hwver := [], tempo := 0, tracks := [] } ∧
    decode (tinyBuf ++ [104, 105]) =
      Except.ok { hwver := [104, 105], tempo := 0, tracks := [] } ∧
    ({ hwver := [], tempo := 0, tracks := [] } : Pattern) ≠
      { hwver := [104, 105], tempo := 0, tracks := [] } :=
  ⟨rfl, rfl, by decide⟩

/-- Processing one 4-cell group of the step loop: when the running index is
a multiple of 4, the next four cells render with no inner bar and one bar
after the fourth cell. -/
theorem stepStrAux_group (j : Nat) (g ss : List Nat) (hg : g.length = 4)
    (hj : j % 4 = 0) :
    stepStrAux j (g ++ ss) = specGroup g ++ stepStrAux (j + 4) ss := by
  rcases g with _ | ⟨a, _ | ⟨b, _ | ⟨c, _ | ⟨d, rest⟩⟩⟩⟩
  · simp at hg
  · simp at hg
  · simp at hg
  · simp at hg
  · have hrest : rest = [] := by
      simp only [List.length_cons] at hg
      exact List.length_eq_zero.mp (by omega)
    subst hrest
    have h1 : (j + 1) % 4 ≠ 0 := by omega
    have h2 : (j + 1 + 1) % 4 ≠ 0 := by omega
    have h3 : (j + 1 + 1 + 1) % 4 ≠ 0 := by omega
    have h4 : (j + 1 + 1 + 1 + 1) % 4 = 0 := by omega
    have e : j + 1 + 1 + 1 + 1 = j + 4 := by omega
    simp [stepStrAux, specGroup, specCell, stepChar, h1, h2, h3, h4, e,
      List.append_assoc]

/-- For a 16-cell step list, the step loop's output is exactly the four
4-cell groups, each closed by a bar. -/
theorem stepString_eq_groups (l : List Nat) (hl : l.length = 16) :
    stepString l =
      specGroup (l.take 4) ++ (specGroup ((l.drop 4).take 4) ++
        (specGroup ((l.drop 8).take 4) ++ specGroup ((l.drop 12).take 4))) := by
  unfold stepString
  conv_lhs => rw [← List.take_append_drop 4 l]
  rw [stepStrAux_group 0 _ _ (by rw [List.length_take]; omega) (by decide)]
  rw [show (0 : Nat) + 4 = 4 from rfl]
  conv_lhs => rw [← List.take_append_drop 4 (l.drop 4)]
  rw [stepStrAux_group 4 _ _
    (by rw [List.length_take, List.length_drop]; omega) (by decide)]
  rw [List.drop_drop, show (4 : Nat) + 4 = 8 from rfl]
  conv_lhs => rw [← List.take_append_drop 4 (l.drop 8)]
  rw [stepStrAux_group 8 _ _
    (by rw [List.length_take, List.length_drop]; omega) (by decide)]
  rw [List.drop_drop, show (8 : Nat) + 4 = 12 from rfl]
  conv_lhs => rw [← List.take_append_drop 4 (l.drop 12)]
  rw [stepStrAux_group 12 _ _
    (by rw [List.length_take, List.length_drop]; omega) (by decide)]
  rw [List.drop_drop, show (12 : Nat) + 4 = 16 from rfl]
  rw [show l.drop 16 = [] from List.drop_eq_nil_of_le (by omega)]
  simp [stepStrAux, List.append_assoc]

theorem foldl_trackLine_eq (ts : List track) :
    ∀ acc, ts.foldl (fun a t => a ++ trackLine t) acc =
      acc ++ (ts.map trackLine).flatten := by
  induction ts with
  | nil =>
    intro acc
    simp
  | cons t ts ih =>
    intro acc
    simp [ih, List.append_assoc]

/-- C6 (confirmed): for every Pattern (whose tracks carry their 16 step
bytes), the renderer emits one line per track in track order, each line
being (<id>) <name><TAB>| followed by the 16 cells - `x` exactly for the
byte value 1, `-` otherwise - with a bar after every group of 4 cells, a
trailing bar, and a newline. -/
theorem render_matches_spec (p : Pattern)
    (h : ∀ t ∈ p.tracks, t.steps.length = numSteps) :
    tracksAsString p = specRender p := by
  unfold tracksAsString specRender
  rw [foldl_trackLine_eq p.tracks [], List.nil_append]
  congr 1
  apply List.map_congr_left
  intro t ht
  have hlen : t.steps.length = 16 := h t ht
  unfold trackLine specTrackLine
  rw [stepString_eq_groups t.steps hlen]
  simp [List.append_assoc]

/-- Witness for C6 at the decoded one-track Pattern. -/
theorem render_matches_spec_witness :
    tracksAsString oneTrackPat = specRender oneTrackPat :=
  render_matches_spec oneTrackPat (by decide)

end Drum
